import Mathlib

/-!
Verification of `flow::LayerBuilder` (src/flow/layers/layer_builder.cc).

Shallow embedding conventions:
* Skia scalars (`SkScalar`) are modelled as rationals `ℚ`.
* `SkRect` is a record of the four edges; `isEmpty`, the two-argument
  `intersect`, the static `Intersects`, `offset` and `MakeLargest` follow
  Skia's definitions (strict inequalities, empty rects never intersect).
* `SkMatrix` is modelled as a 2D affine matrix (the spec's data model:
  "Transform carries a 2D affine matrix"); `invert` succeeds exactly when
  the linear part's determinant is nonzero, and `mapRect` maps the four
  corners and takes their axis-aligned bounding box, as Skia does for
  non-perspective matrices.
* `SkPath` is represented by its bounding rectangle (the builder consults
  only `path.getBounds()`); `SkPicture` by its `cullRect`; shaders, image
  filters and colors by opaque numeric references.
* The layer tree is a value: each node records an id (allocation order,
  standing in for C++ object identity), its kind-specific parameters and
  its ordered children.  The builder's `current_layer_` raw pointer is
  modelled as a path of child indices from the root; `Layer::parent()`
  navigation on `Pop` becomes dropping the last index.
* `cull_rects_` (a `std::stack`) is a list whose head is the top.
-/

namespace Flow

/-- Axis-aligned rectangle with rational coordinates, modelling `SkRect`. -/
structure SkRect where
  fLeft : ℚ
  fTop : ℚ
  fRight : ℚ
  fBottom : ℚ
deriving DecidableEq, Repr, Inhabited

/-- `SK_ScalarMax` (the value of `FLT_MAX`, as a rational:
`3402823466 × 10^29`). -/
def SK_ScalarMax : ℚ := 340282346600000000000000000000000000000

/-- `SkRect::MakeLargest()`: from `-SK_ScalarMax` to `SK_ScalarMax` on both axes. -/
def SkRect.MakeLargest : SkRect :=
  ⟨-SK_ScalarMax, -SK_ScalarMax, SK_ScalarMax, SK_ScalarMax⟩

/-- `SkRect::MakeEmpty()`: all four edges zero. -/
def SkRect.MakeEmpty : SkRect := ⟨0, 0, 0, 0⟩

/-- `SkRect::isEmpty()`: true when the rect has no positive area. -/
def SkRect.isEmpty (r : SkRect) : Prop :=
  r.fRight ≤ r.fLeft ∨ r.fBottom ≤ r.fTop

instance (r : SkRect) : Decidable r.isEmpty := by
  unfold SkRect.isEmpty; infer_instance

/-- Static `SkRect::Intersects(a, b)`: both non-empty and strictly overlapping. -/
def SkRect.Intersects (a b : SkRect) : Prop :=
  ¬a.isEmpty ∧ ¬b.isEmpty ∧
    a.fLeft < b.fRight ∧ b.fLeft < a.fRight ∧
    a.fTop < b.fBottom ∧ b.fTop < a.fBottom

instance (a b : SkRect) : Decidable (SkRect.Intersects a b) := by
  unfold SkRect.Intersects; infer_instance

/-- Two-argument `SkRect::intersect(a, b)`: when `a` and `b` intersect, the
member rect is set to their intersection and `true` is returned; otherwise the
member is left alone and `false` is returned.  Modelled as an `Option`. -/
def SkRect.intersect (a b : SkRect) : Option SkRect :=
  if SkRect.Intersects a b then
    some ⟨max a.fLeft b.fLeft, max a.fTop b.fTop,
          min a.fRight b.fRight, min a.fBottom b.fBottom⟩
  else
    none

/-- `SkRect::offset(dx, dy)`: translate the rectangle. -/
def SkRect.offsetBy (r : SkRect) (dx dy : ℚ) : SkRect :=
  ⟨r.fLeft + dx, r.fTop + dy, r.fRight + dx, r.fBottom + dy⟩

/-- A 2D point (`SkPoint`). -/
structure SkPoint where
  x : ℚ
  y : ℚ
deriving DecidableEq, Repr, Inhabited

/-- `SkMatrix`, restricted to 2D affine transforms (the data model the spec
assigns to Transform nodes): point map
`(x, y) ↦ (scaleX*x + skewX*y + transX, skewY*x + scaleY*y + transY)`. -/
structure SkMatrix where
  scaleX : ℚ
  skewX : ℚ
  transX : ℚ
  skewY : ℚ
  scaleY : ℚ
  transY : ℚ
deriving DecidableEq, Repr, Inhabited

/-- Determinant of the linear part of an affine `SkMatrix`. -/
def SkMatrix.det (m : SkMatrix) : ℚ := m.scaleX * m.scaleY - m.skewX * m.skewY

/-- `SkMatrix::invert`: `none` when singular, otherwise the inverse affine map. -/
def SkMatrix.invert (m : SkMatrix) : Option SkMatrix :=
  if m.det = 0 then none
  else
    some ⟨m.scaleY / m.det, -m.skewX / m.det,
          (m.skewX * m.transY - m.scaleY * m.transX) / m.det,
          -m.skewY / m.det, m.scaleX / m.det,
          (m.skewY * m.transX - m.scaleX * m.transY) / m.det⟩

/-- Apply an affine `SkMatrix` to a point. -/
def SkMatrix.mapPoint (m : SkMatrix) (p : SkPoint) : SkPoint :=
  ⟨m.scaleX * p.x + m.skewX * p.y + m.transX,
   m.skewY * p.x + m.scaleY * p.y + m.transY⟩

/-- `SkMatrix::mapRect` for a (non-perspective) matrix: map the four corners
and return their axis-aligned bounding box. -/
def SkMatrix.mapRect (m : SkMatrix) (r : SkRect) : SkRect :=
  let p1 := m.mapPoint ⟨r.fLeft, r.fTop⟩
  let p2 := m.mapPoint ⟨r.fRight, r.fTop⟩
  let p3 := m.mapPoint ⟨r.fLeft, r.fBottom⟩
  let p4 := m.mapPoint ⟨r.fRight, r.fBottom⟩
  ⟨min (min p1.x p2.x) (min p3.x p4.x),
   min (min p1.y p2.y) (min p3.y p4.y),
   max (max p1.x p2.x) (max p3.x p4.x),
   max (max p1.y p2.y) (max p3.y p4.y)⟩

/-- `SkRRect`, reduced to its bounding rectangle (`rrect.rect()` is the only
observation the builder makes of a rounded rectangle). -/
structure SkRRect where
  rect : SkRect
deriving DecidableEq, Repr, Inhabited

/-- `SkPicture`, reduced to its `cullRect()` (the content bounds, the only
observation the builder makes of a picture). -/
structure SkPicture where
  cullRect : SkRect
deriving DecidableEq, Repr, Inhabited

/-- Kind-specific parameters of a layer node; one constructor per concrete
`flow::Layer` subclass the builder instantiates.  Opaque references (colors,
blend modes, image filters, shaders) are modelled as naturals. -/
inductive LayerContent where
  | transform (matrix : SkMatrix)
  | clipRect (clip : SkRect)
  | clipRRect (rrect : SkRRect)
  | clipPath (pathBounds : SkRect)
  | opacity (alpha : Int)
  | colorFilter (color : Nat) (blendMode : Nat)
  | backdropFilter (filter : Nat)
  | shaderMask (shader : Nat) (maskRect : SkRect) (blendMode : Nat)
  | physicalModel (rrect : SkRRect) (elevation : ℚ) (color : Nat)
      (devicePixelRatio : ℚ)
  | performanceOverlay (enabledOptions : Nat) (paintBounds : SkRect)
  | picture (offset : SkPoint) (pic : SkPicture) (isComplex : Bool)
      (willChange : Bool)
deriving DecidableEq, Repr, Inhabited

/-- A node of the retained layer tree: an id recording allocation order
(standing in for C++ object identity), the kind-specific parameters, and the
ordered list of children (`ContainerLayer::layers_`; leaves keep `[]`). -/
inductive Layer where
  | mk (id : Nat) (content : LayerContent) (children : List Layer)

/-- The allocation id of a node. -/
def Layer.id : Layer → Nat
  | .mk i _ _ => i

/-- The kind-specific parameters of a node. -/
def Layer.content : Layer → LayerContent
  | .mk _ c _ => c

/-- The ordered children of a node. -/
def Layer.children : Layer → List Layer
  | .mk _ _ cs => cs

instance : Inhabited Layer := ⟨.mk 0 (.opacity 0) []⟩

/-- Follow a path of child indices down from a node; `none` if the path
leaves the tree.  This interprets the `current_layer_` pointer. -/
def Layer.getAt? : List Nat → Layer → Option Layer
  | [], l => some l
  | i :: p, l => (l.children.get? i).bind (Layer.getAt? p)

/-- `ContainerLayer::Add` at the node a path designates: append `c` as the
last child of the node reached by `p` (tree unchanged if the path is bad). -/
def appendChildAt (c : Layer) : List Nat → Layer → Layer
  | [], .mk i ct cs => .mk i ct (cs ++ [c])
  | k :: p, .mk i ct cs =>
      .mk i ct
        (match cs.get? k with
         | none => cs
         | some child => cs.set k (appendChildAt c p child))

mutual
/-- Number of `Picture` nodes in a tree. -/
def countPictures : Layer → Nat
  | .mk _ ct cs =>
      (match ct with
       | .picture _ _ _ _ => 1
       | _ => 0) + countPicturesList cs
/-- Number of `Picture` nodes in a forest. -/
def countPicturesList : List Layer → Nat
  | [] => 0
  | l :: ls => countPictures l + countPicturesList ls
end

/-- The builder state (`flow::LayerBuilder`): the root slot, the current
insertion pointer (as a path of child indices into the root), the cull-rect
stack (head = top), an id counter standing in for the allocator, and the
three pass-through configuration fields. -/
structure LayerBuilder where
  root_layer_ : Option Layer
  current_layer_ : Option (List Nat)
  cull_rects_ : List SkRect
  nextId : Nat
  rasterizer_tracing_threshold_ : Nat
  checkerboard_raster_cache_images_ : Bool
  checkerboard_offscreen_layers_ : Bool

/-- The constructor `LayerBuilder::LayerBuilder()`: pushes
`SkRect::MakeLargest()` as the sentinel cull rect. -/
def LayerBuilder.init : LayerBuilder :=
  { root_layer_ := none
    current_layer_ := none
    cull_rects_ := [SkRect.MakeLargest]
    nextId := 0
    rasterizer_tracing_threshold_ := 0
    checkerboard_raster_cache_images_ := false
    checkerboard_offscreen_layers_ := false }

/-- `cull_rects_.top()`.  Total via a default; every reachable state has a
non-empty stack (proved below), so the default is never consulted there. -/
def LayerBuilder.topCull (b : LayerBuilder) : SkRect :=
  b.cull_rects_.headD SkRect.MakeLargest

/-- Child count of the node a path designates (the index the next appended
child will occupy). -/
def childCountAt (r : Layer) (p : List Nat) : Nat :=
  ((r.getAt? p).map (fun n => n.children.length)).getD 0

/-- `LayerBuilder::PushLayer(layer, cullRect)`: push the cull rect; if there
is no root yet the new node becomes root and current; else if there is no
current pointer the node is discarded; else append it as last child of the
current node and make it current. -/
def pushLayer (b : LayerBuilder) (content : LayerContent) (cullRect : SkRect) :
    LayerBuilder :=
  let b' := { b with cull_rects_ := cullRect :: b.cull_rects_
                     nextId := b.nextId + 1 }
  match b.root_layer_ with
  | none =>
      { b' with root_layer_ := some (Layer.mk b.nextId content [])
                current_layer_ := some [] }
  | some root =>
      match b.current_layer_ with
      | none => b'
      | some p =>
          { b' with
            root_layer_ :=
              some (appendChildAt (Layer.mk b.nextId content []) p root)
            current_layer_ := some (p ++ [childCountAt root p]) }

/-- Leaf insertion (`current_layer_->Add(...)`): append a fresh leaf as last
child of the current node.  When the root slot is empty (the tree has been
transferred out) the builder's own state is unchanged, matching the C++ where
the mutation happens in a tree the builder no longer owns. -/
def addLeaf (b : LayerBuilder) (content : LayerContent) : LayerBuilder :=
  match b.current_layer_, b.root_layer_ with
  | some p, some root =>
      { b with
        root_layer_ := some (appendChildAt (Layer.mk b.nextId content []) p root)
        nextId := b.nextId + 1 }
  | _, _ => b

/-- `LayerBuilder::PushTransform`. -/
def LayerBuilder.PushTransform (b : LayerBuilder) (sk_matrix : SkMatrix) :
    LayerBuilder :=
  let cullRect :=
    match sk_matrix.invert with
    | some inverse_sk_matrix => inverse_sk_matrix.mapRect b.topCull
    | none => SkRect.MakeLargest
  pushLayer b (.transform sk_matrix) cullRect

/-- `LayerBuilder::PushClipRect`. -/
def LayerBuilder.PushClipRect (b : LayerBuilder) (clipRect : SkRect) :
    LayerBuilder :=
  let cullRect := (SkRect.intersect clipRect b.topCull).getD SkRect.MakeEmpty
  pushLayer b (.clipRect clipRect) cullRect

/-- `LayerBuilder::PushClipRoundedRect`. -/
def LayerBuilder.PushClipRoundedRect (b : LayerBuilder) (rrect : SkRRect) :
    LayerBuilder :=
  let cullRect := (SkRect.intersect rrect.rect b.topCull).getD SkRect.MakeEmpty
  pushLayer b (.clipRRect rrect) cullRect

/-- `LayerBuilder::PushClipPath` (the path represented by its bounds). -/
def LayerBuilder.PushClipPath (b : LayerBuilder) (pathBounds : SkRect) :
    LayerBuilder :=
  let cullRect := (SkRect.intersect pathBounds b.topCull).getD SkRect.MakeEmpty
  pushLayer b (.clipPath pathBounds) cullRect

/-- `LayerBuilder::PushOpacity`. -/
def LayerBuilder.PushOpacity (b : LayerBuilder) (alpha : Int) : LayerBuilder :=
  pushLayer b (.opacity alpha) b.topCull

/-- `LayerBuilder::PushColorFilter`. -/
def LayerBuilder.PushColorFilter (b : LayerBuilder) (color blend_mode : Nat) :
    LayerBuilder :=
  pushLayer b (.colorFilter color blend_mode) b.topCull

/-- `LayerBuilder::PushBackdropFilter`. -/
def LayerBuilder.PushBackdropFilter (b : LayerBuilder) (filter : Nat) :
    LayerBuilder :=
  pushLayer b (.backdropFilter filter) b.topCull

/-- `LayerBuilder::PushShaderMask`. -/
def LayerBuilder.PushShaderMask (b : LayerBuilder) (shader : Nat)
    (rect : SkRect) (blend_mode : Nat) : LayerBuilder :=
  pushLayer b (.shaderMask shader rect blend_mode) b.topCull

/-- `LayerBuilder::PushPhysicalModel`. -/
def LayerBuilder.PushPhysicalModel (b : LayerBuilder) (sk_rrect : SkRRect)
    (elevation : ℚ) (color : Nat) (device_pixel_ratio : ℚ) : LayerBuilder :=
  let cullRect :=
    (SkRect.intersect sk_rrect.rect b.topCull).getD SkRect.MakeEmpty
  pushLayer b (.physicalModel sk_rrect elevation color device_pixel_ratio)
    cullRect

/-- `LayerBuilder::PushPerformanceOverlay`: no-op without a current pointer;
otherwise append the overlay leaf, with no geometry test. -/
def LayerBuilder.PushPerformanceOverlay (b : LayerBuilder)
    (enabled_options : Nat) (rect : SkRect) : LayerBuilder :=
  match b.current_layer_ with
  | none => b
  | some _ => addLeaf b (.performanceOverlay enabled_options rect)

/-- `LayerBuilder::PushPicture`: no-op without a current pointer; otherwise
translate the picture's cull rect by the offset and drop the leaf unless it
intersects the top cull rect. -/
def LayerBuilder.PushPicture (b : LayerBuilder) (offset : SkPoint)
    (picture : SkPicture) (picture_is_complex picture_will_change : Bool) :
    LayerBuilder :=
  match b.current_layer_ with
  | none => b
  | some _ =>
      let pictureRect := picture.cullRect.offsetBy offset.x offset.y
      if SkRect.Intersects pictureRect b.topCull then
        addLeaf b (.picture offset picture picture_is_complex
          picture_will_change)
      else b

/-- `LayerBuilder::Pop`: no-op without a current pointer; otherwise pop the
cull stack and move the current pointer to the parent (none at the root). -/
def LayerBuilder.Pop (b : LayerBuilder) : LayerBuilder :=
  match b.current_layer_ with
  | none => b
  | some p =>
      { b with cull_rects_ := b.cull_rects_.tail
               current_layer_ := if p = [] then none else some p.dropLast }

/-- `LayerBuilder::TakeLayer`: `std::move(root_layer_)` — returns the root
and leaves the slot empty; nothing else changes. -/
def LayerBuilder.TakeLayer (b : LayerBuilder) : Option Layer × LayerBuilder :=
  (b.root_layer_, { b with root_layer_ := none })

/-- `LayerBuilder::SetRasterizerTracingThreshold`. -/
def LayerBuilder.SetRasterizerTracingThreshold (b : LayerBuilder) (v : Nat) :
    LayerBuilder :=
  { b with rasterizer_tracing_threshold_ := v }

/-- `LayerBuilder::SetCheckerboardRasterCacheImages`. -/
def LayerBuilder.SetCheckerboardRasterCacheImages (b : LayerBuilder)
    (v : Bool) : LayerBuilder :=
  { b with checkerboard_raster_cache_images_ := v }

/-- `LayerBuilder::SetCheckerboardOffscreenLayers`. -/
def LayerBuilder.SetCheckerboardOffscreenLayers (b : LayerBuilder) (v : Bool) :
    LayerBuilder :=
  { b with checkerboard_offscreen_layers_ := v }

/-- One public builder operation (the mutating interface of
`flow::LayerBuilder`; `takeLayer`'s returned tree is discarded here). -/
inductive Op where
  | pushTransform (m : SkMatrix)
  | pushClipRect (r : SkRect)
  | pushClipRoundedRect (rr : SkRRect)
  | pushClipPath (pathBounds : SkRect)
  | pushOpacity (alpha : Int)
  | pushColorFilter (color blendMode : Nat)
  | pushBackdropFilter (filter : Nat)
  | pushShaderMask (shader : Nat) (rect : SkRect) (blendMode : Nat)
  | pushPhysicalModel (rrect : SkRRect) (elevation : ℚ) (color : Nat)
      (devicePixelRatio : ℚ)
  | pushPerformanceOverlay (enabledOptions : Nat) (rect : SkRect)
  | pushPicture (offset : SkPoint) (picture : SkPicture)
      (isComplex willChange : Bool)
  | pop
  | takeLayer
  | setRasterizerTracingThreshold (v : Nat)
  | setCheckerboardRasterCacheImages (v : Bool)
  | setCheckerboardOffscreenLayers (v : Bool)
deriving DecidableEq, Repr

/-- Whether an operation is one of the nine `Begin*` (container-opening)
operations, all of which funnel through `PushLayer`. -/
def Op.isBegin : Op → Bool
  | .pushTransform _ => true
  | .pushClipRect _ => true
  | .pushClipRoundedRect _ => true
  | .pushClipPath _ => true
  | .pushOpacity _ => true
  | .pushColorFilter _ _ => true
  | .pushBackdropFilter _ => true
  | .pushShaderMask _ _ _ => true
  | .pushPhysicalModel _ _ _ _ => true
  | _ => false

/-- Interpret one operation on the builder state. -/
def step (op : Op) (b : LayerBuilder) : LayerBuilder :=
  match op with
  | .pushTransform m => b.PushTransform m
  | .pushClipRect r => b.PushClipRect r
  | .pushClipRoundedRect rr => b.PushClipRoundedRect rr
  | .pushClipPath pb => b.PushClipPath pb
  | .pushOpacity a => b.PushOpacity a
  | .pushColorFilter c m => b.PushColorFilter c m
  | .pushBackdropFilter f => b.PushBackdropFilter f
  | .pushShaderMask s r m => b.PushShaderMask s r m
  | .pushPhysicalModel rr e c d => b.PushPhysicalModel rr e c d
  | .pushPerformanceOverlay o r => b.PushPerformanceOverlay o r
  | .pushPicture o p c w => b.PushPicture o p c w
  | .pop => b.Pop
  | .takeLayer => (b.TakeLayer).2
  | .setRasterizerTracingThreshold v => b.SetRasterizerTracingThreshold v
  | .setCheckerboardRasterCacheImages v => b.SetCheckerboardRasterCacheImages v
  | .setCheckerboardOffscreenLayers v => b.SetCheckerboardOffscreenLayers v

/-- Run a sequence of operations left to right. -/
def run (ops : List Op) (b : LayerBuilder) : LayerBuilder :=
  ops.foldl (fun s op => step op s) b

/-! ### Basic lemmas about `run` -/

@[simp]
theorem run_nil (b : LayerBuilder) : run [] b = b := rfl

@[simp]
theorem run_cons (op : Op) (ops : List Op) (b : LayerBuilder) :
    run (op :: ops) b = run ops (step op b) := rfl

theorem run_append (xs ys : List Op) (b : LayerBuilder) :
    run (xs ++ ys) b = run ys (run xs b) := by
  simp [run, List.foldl_append]

/-! ### Lemmas about paths, `getAt?` and `appendChildAt` -/

theorem getAt?_append (p q : List Nat) (r : Layer) :
    Layer.getAt? (p ++ q) r = (Layer.getAt? p r).bind (Layer.getAt? q) := by
  induction p generalizing r with
  | nil => simp [Layer.getAt?]
  | cons i p ih =>
      simp only [List.cons_append, Layer.getAt?]
      cases r.children.get? i with
      | none => simp
      | some c => simp [ih]

theorem get?_set_some {α : Type} (l : List α) (i : Nat) (a x : α)
    (h : l.get? i = some x) : (l.set i a).get? i = some a := by
  rw [List.get?_set_eq, h]; rfl

theorem get?_concat_len {α : Type} (l : List α) (a : α) :
    (l ++ [a]).get? l.length = some a := List.get?_concat_length l a

theorem set_concat_len {α : Type} (l : List α) (a b : α) :
    (l ++ [a]).set l.length b = l ++ [b] := by
  induction l with
  | nil => rfl
  | cons x xs ih => simp [List.set, ih]

/-- Appending a child at a valid path rewrites exactly the designated node,
extending its child list. -/
theorem appendChildAt_getAt?_self (c : Layer) (p : List Nat) (r n : Layer)
    (h : Layer.getAt? p r = some n) :
    Layer.getAt? p (appendChildAt c p r) =
      some (Layer.mk n.id n.content (n.children ++ [c])) := by
  induction p generalizing r n with
  | nil =>
      cases r with
      | mk i ct cs =>
          simp only [Layer.getAt?, Option.some.injEq] at h
          subst h
          simp [Layer.getAt?, appendChildAt, Layer.id, Layer.content,
            Layer.children]
  | cons k p ih =>
      cases r with
      | mk i ct cs =>
          simp only [Layer.getAt?, Layer.children] at h
          cases hg : cs.get? k with
          | none => rw [hg] at h; simp at h
          | some child =>
              rw [hg] at h
              simp only [Option.some_bind] at h
              simp only [appendChildAt, hg, Layer.getAt?, Layer.children]
              rw [get?_set_some cs k _ child hg]
              simp only [Option.some_bind]
              rw [ih child n h]
              cases n
              rfl

/-- The freshly appended child sits at index `n.children.length` under the
path used to append it. -/
theorem appendChildAt_getAt?_new (c : Layer) (p : List Nat) (r n : Layer)
    (h : Layer.getAt? p r = some n) :
    Layer.getAt? (p ++ [n.children.length]) (appendChildAt c p r) = some c := by
  rw [getAt?_append, appendChildAt_getAt?_self c p r n h]
  simp [Layer.getAt?, Layer.children, get?_concat_len]

/-- Appending a valid path keeps it valid. -/
theorem appendChildAt_getAt?_isSome (c : Layer) (p : List Nat) (r : Layer)
    (h : (Layer.getAt? p r).isSome) :
    (Layer.getAt? p (appendChildAt c p r)).isSome := by
  cases hn : Layer.getAt? p r with
  | none => rw [hn] at h; simp at h
  | some n => rw [appendChildAt_getAt?_self c p r n hn]; rfl

/-- A valid path stays valid when its last index is dropped. -/
theorem getAt?_dropLast_isSome (p : List Nat) (r : Layer)
    (h : (Layer.getAt? p r).isSome) :
    (Layer.getAt? p.dropLast r).isSome := by
  rcases eq_or_ne p [] with rfl | hp
  · simpa using h
  · have hsplit : p.dropLast ++ [p.getLast hp] = p :=
      List.dropLast_append_getLast hp
    rw [← hsplit, getAt?_append] at h
    cases hd : Layer.getAt? p.dropLast r with
    | none => rw [hd] at h; simp at h
    | some _ => rfl

/-- Appending first an empty container at `p`, then a child under it at its
own (fresh) index, is the same as appending the one-child container at `p`. -/
theorem appendChildAt_nested (p : List Nat) (r n : Layer) (i : Nat)
    (ct : LayerContent) (c : Layer) (h : Layer.getAt? p r = some n) :
    appendChildAt c (p ++ [n.children.length])
        (appendChildAt (Layer.mk i ct []) p r) =
      appendChildAt (Layer.mk i ct [c]) p r := by
  induction p generalizing r n with
  | nil =>
      cases r with
      | mk ri rct cs =>
          simp only [Layer.getAt?, Option.some.injEq] at h
          subst h
          simp only [List.nil_append, appendChildAt, Layer.children,
            get?_concat_len]
          rw [set_concat_len]
  | cons k p ih =>
      cases r with
      | mk ri rct cs =>
          simp only [Layer.getAt?, Layer.children] at h
          cases hg : cs.get? k with
          | none => rw [hg] at h; simp at h
          | some child =>
              rw [hg] at h
              simp only [Option.some_bind] at h
              simp only [List.cons_append, appendChildAt, hg]
              rw [get?_set_some cs k _ child hg]
              simp only [List.set_set, List.append_eq]
              rw [ih child n h]

/-! ### Counting picture nodes -/

theorem countPicturesList_append (xs ys : List Layer) :
    countPicturesList (xs ++ ys) =
      countPicturesList xs + countPicturesList ys := by
  induction xs with
  | nil => simp [countPicturesList]
  | cons l ls ih => simp [countPicturesList, ih]; omega

theorem countPicturesList_set (cs : List Layer) (k : Nat) (x ch : Layer)
    (h : cs.get? k = some ch) :
    countPicturesList (cs.set k x) + countPictures ch =
      countPicturesList cs + countPictures x := by
  induction cs generalizing k with
  | nil => simp at h
  | cons c cs ih =>
      cases k with
      | zero =>
          simp only [List.get?] at h
          cases h
          simp [List.set, countPicturesList]
          omega
      | succ k =>
          simp only [List.get?] at h
          have := ih k h
          simp [List.set, countPicturesList]
          omega

theorem countPictures_appendChildAt (c : Layer) (p : List Nat) (r n : Layer)
    (h : Layer.getAt? p r = some n) :
    countPictures (appendChildAt c p r) =
      countPictures r + countPictures c := by
  induction p generalizing r n with
  | nil =>
      cases r with
      | mk ri rct cs =>
          simp only [Layer.getAt?, Option.some.injEq] at h
          subst h
          simp [appendChildAt, countPictures, countPicturesList_append,
            countPicturesList]
          omega
  | cons k p ih =>
      cases r with
      | mk ri rct cs =>
          simp only [Layer.getAt?, Layer.children] at h
          cases hg : cs.get? k with
          | none => rw [hg] at h; simp at h
          | some child =>
              rw [hg] at h
              simp only [Option.some_bind] at h
              have h2 := ih child n h
              have h3 :=
                countPicturesList_set cs k (appendChildAt c p child) child hg
              simp only [appendChildAt, hg, countPictures]
              omega

/-! ### Case lemmas for `pushLayer` and the leaf/pop operations -/

/-- `PushLayer` with an empty root slot: the node becomes root and current. -/
theorem pushLayer_root_none (b : LayerBuilder) (ct : LayerContent)
    (cr : SkRect) (h : b.root_layer_ = none) :
    pushLayer b ct cr =
      { b with root_layer_ := some (Layer.mk b.nextId ct [])
               current_layer_ := some []
               cull_rects_ := cr :: b.cull_rects_
               nextId := b.nextId + 1 } := by
  unfold pushLayer
  rw [h]

/-- `PushLayer` with a root but no current pointer: the cull rect is pushed
and the node is discarded. -/
theorem pushLayer_discard (b : LayerBuilder) (ct : LayerContent) (cr : SkRect)
    (r : Layer) (hr : b.root_layer_ = some r) (hc : b.current_layer_ = none) :
    pushLayer b ct cr =
      { b with cull_rects_ := cr :: b.cull_rects_
               nextId := b.nextId + 1 } := by
  unfold pushLayer
  rw [hr, hc]

/-- `PushLayer` with a current pointer: append as last child and descend. -/
theorem pushLayer_append (b : LayerBuilder) (ct : LayerContent) (cr : SkRect)
    (r : Layer) (p : List Nat) (hr : b.root_layer_ = some r)
    (hc : b.current_layer_ = some p) :
    pushLayer b ct cr =
      { b with
        root_layer_ := some (appendChildAt (Layer.mk b.nextId ct []) p r)
        current_layer_ := some (p ++ [childCountAt r p])
        cull_rects_ := cr :: b.cull_rects_
        nextId := b.nextId + 1 } := by
  unfold pushLayer
  rw [hr, hc]

/-- Every `Begin*` operation is an instance of `PushLayer`. -/
theorem step_isBegin_eq_pushLayer (op : Op) (h : op.isBegin = true)
    (b : LayerBuilder) : ∃ ct cr, step op b = pushLayer b ct cr := by
  cases op <;> simp only [Op.isBegin] at h <;>
    first
      | exact ⟨_, _, rfl⟩
      | exact absurd h (by simp)

/-- `Add` sites are no-ops without a current pointer. -/
theorem addLeaf_no_current (b : LayerBuilder) (ct : LayerContent)
    (hc : b.current_layer_ = none) : addLeaf b ct = b := by
  unfold addLeaf
  rw [hc]

/-- `Add` sites leave the builder state alone once the root has been moved
out (the mutation happens in the transferred tree). -/
theorem addLeaf_root_none (b : LayerBuilder) (ct : LayerContent)
    (hr : b.root_layer_ = none) : addLeaf b ct = b := by
  unfold addLeaf
  cases hc : b.current_layer_ with
  | none => rfl
  | some p => rw [hr]

/-- `Add` with a current pointer and a root: append the fresh leaf as the
last child of the current node. -/
theorem addLeaf_some (b : LayerBuilder) (ct : LayerContent) (p : List Nat)
    (root : Layer) (hc : b.current_layer_ = some p)
    (hr : b.root_layer_ = some root) :
    addLeaf b ct =
      { b with
        root_layer_ :=
          some (appendChildAt (Layer.mk b.nextId ct []) p root)
        nextId := b.nextId + 1 } := by
  unfold addLeaf
  rw [hc, hr]

/-- `PushPicture` without a current pointer is a no-op. -/
theorem PushPicture_no_current (b : LayerBuilder) (o : SkPoint)
    (pic : SkPicture) (c w : Bool) (hc : b.current_layer_ = none) :
    b.PushPicture o pic c w = b := by
  unfold LayerBuilder.PushPicture
  rw [hc]

/-- `PushPicture` whose translated bounds intersect the top cull rect adds
the picture leaf. -/
theorem PushPicture_hit (b : LayerBuilder) (o : SkPoint) (pic : SkPicture)
    (c w : Bool) (p : List Nat) (hc : b.current_layer_ = some p)
    (hi : SkRect.Intersects (pic.cullRect.offsetBy o.x o.y) b.topCull) :
    b.PushPicture o pic c w = addLeaf b (.picture o pic c w) := by
  unfold LayerBuilder.PushPicture
  rw [hc]
  simp only [if_pos hi]

/-- `PushPicture` whose translated bounds miss the top cull rect drops the
leaf: the builder is unchanged. -/
theorem PushPicture_miss (b : LayerBuilder) (o : SkPoint) (pic : SkPicture)
    (c w : Bool) (p : List Nat) (hc : b.current_layer_ = some p)
    (hi : ¬SkRect.Intersects (pic.cullRect.offsetBy o.x o.y) b.topCull) :
    b.PushPicture o pic c w = b := by
  unfold LayerBuilder.PushPicture
  rw [hc]
  simp only [if_neg hi]

/-- `PushPerformanceOverlay` without a current pointer is a no-op. -/
theorem PushPerformanceOverlay_no_current (b : LayerBuilder) (o : Nat)
    (rect : SkRect) (hc : b.current_layer_ = none) :
    b.PushPerformanceOverlay o rect = b := by
  unfold LayerBuilder.PushPerformanceOverlay
  rw [hc]

/-- `PushPerformanceOverlay` with a current pointer adds the overlay leaf,
with no geometry test. -/
theorem PushPerformanceOverlay_some (b : LayerBuilder) (o : Nat)
    (rect : SkRect) (p : List Nat) (hc : b.current_layer_ = some p) :
    b.PushPerformanceOverlay o rect =
      addLeaf b (.performanceOverlay o rect) := by
  unfold LayerBuilder.PushPerformanceOverlay
  rw [hc]

/-- `Pop` without a current pointer is a no-op. -/
theorem Pop_no_current (b : LayerBuilder) (hc : b.current_layer_ = none) :
    b.Pop = b := by
  unfold LayerBuilder.Pop
  rw [hc]

/-- `Pop` with a current pointer pops the cull stack and moves to the
parent. -/
theorem Pop_some (b : LayerBuilder) (p : List Nat)
    (hc : b.current_layer_ = some p) :
    b.Pop =
      { b with cull_rects_ := b.cull_rects_.tail
               current_layer_ := if p = [] then none else some p.dropLast } := by
  unfold LayerBuilder.Pop
  rw [hc]

/-! ### The builder invariant -/

/-- Invariant of every reachable builder state: the cull stack is never
empty; when a current pointer designates a node at depth `p.length` the cull
stack holds the sentinel, the rects of the containers along the path, and the
top — `p.length + 2` entries at least; and the current path is realisable in
the tree whenever a root is present. -/
def Inv (b : LayerBuilder) : Prop :=
  b.cull_rects_ ≠ [] ∧
  (∀ p, b.current_layer_ = some p → p.length + 2 ≤ b.cull_rects_.length) ∧
  (∀ p r, b.current_layer_ = some p → b.root_layer_ = some r →
    (Layer.getAt? p r).isSome)

theorem Inv_init : Inv LayerBuilder.init := by
  refine ⟨by simp [LayerBuilder.init], ?_, ?_⟩ <;>
    simp [LayerBuilder.init]

theorem Inv_pushLayer (b : LayerBuilder) (ct : LayerContent) (cr : SkRect)
    (h : Inv b) : Inv (pushLayer b ct cr) := by
  obtain ⟨h1, h2, h3⟩ := h
  have hlen : 1 ≤ b.cull_rects_.length := List.length_pos.mpr h1
  cases hr : b.root_layer_ with
  | none =>
      rw [pushLayer_root_none b ct cr hr]
      refine ⟨by simp, ?_, ?_⟩
      · intro p hp
        simp only [Option.some.injEq] at hp
        subst hp
        simp only [List.length_cons, List.length_nil]
        omega
      · intro p r hp hrr
        simp only [Option.some.injEq] at hp hrr
        subst hp
        subst hrr
        simp [Layer.getAt?]
  | some root =>
      cases hc : b.current_layer_ with
      | none =>
          rw [pushLayer_discard b ct cr root hr hc]
          refine ⟨by simp, ?_, ?_⟩
          · intro p hp
            simp [hc] at hp
          · intro p r hp _
            simp [hc] at hp
      | some p =>
          rw [pushLayer_append b ct cr root p hr hc]
          obtain ⟨n, hn⟩ :=
            Option.isSome_iff_exists.mp (h3 p root hc hr)
          refine ⟨by simp, ?_, ?_⟩
          · intro q hq
            simp only [Option.some.injEq] at hq
            subst hq
            have := h2 p hc
            simp only [List.length_append, List.length_cons,
              List.length_nil]
            omega
          · intro q r' hq hr'
            simp only [Option.some.injEq] at hq hr'
            subst hq
            subst hr'
            have hcount : childCountAt root p = n.children.length := by
              simp [childCountAt, hn]
            rw [hcount,
              appendChildAt_getAt?_new (Layer.mk b.nextId ct []) p root n hn]
            rfl

theorem Inv_addLeaf (b : LayerBuilder) (ct : LayerContent) (h : Inv b) :
    Inv (addLeaf b ct) := by
  obtain ⟨h1, h2, h3⟩ := h
  cases hc : b.current_layer_ with
  | none => rw [addLeaf_no_current b ct hc]; exact ⟨h1, h2, h3⟩
  | some p =>
      cases hr : b.root_layer_ with
      | none => rw [addLeaf_root_none b ct hr]; exact ⟨h1, h2, h3⟩
      | some root =>
          rw [addLeaf_some b ct p root hc hr]
          refine ⟨h1, ?_, ?_⟩
          · intro q hq
            simp only at hq
            exact h2 q hq
          · intro q r' hq hr'
            simp only [hc, Option.some.injEq] at hq hr'
            subst hq
            subst hr'
            exact appendChildAt_getAt?_isSome _ p root (h3 p root hc hr)

theorem Inv_pop (b : LayerBuilder) (h : Inv b) : Inv b.Pop := by
  obtain ⟨h1, h2, h3⟩ := h
  cases hc : b.current_layer_ with
  | none => rw [Pop_no_current b hc]; exact ⟨h1, h2, h3⟩
  | some p =>
      rw [Pop_some b p hc]
      have hdepth := h2 p hc
      refine ⟨?_, ?_, ?_⟩
      · have : 2 ≤ b.cull_rects_.length := by omega
        have htail : 1 ≤ b.cull_rects_.tail.length := by
          rw [List.length_tail]; omega
        exact List.ne_nil_of_length_pos htail
      · intro q hq
        simp only at hq
        by_cases hp : p = []
        · rw [if_pos hp] at hq; cases hq
        · rw [if_neg hp] at hq
          simp only [Option.some.injEq] at hq
          subst hq
          rw [List.length_tail, List.length_dropLast]
          have hplen : 1 ≤ p.length :=
            List.length_pos.mpr hp
          omega
      · intro q r hq hr
        simp only at hq
        by_cases hp : p = []
        · rw [if_pos hp] at hq; cases hq
        · rw [if_neg hp] at hq
          simp only [Option.some.injEq] at hq
          subst hq
          exact getAt?_dropLast_isSome p r (h3 p r hc hr)

theorem Inv_step (op : Op) (b : LayerBuilder) (h : Inv b) : Inv (step op b) := by
  cases op with
  | pushTransform m => exact Inv_pushLayer b _ _ h
  | pushClipRect r => exact Inv_pushLayer b _ _ h
  | pushClipRoundedRect rr => exact Inv_pushLayer b _ _ h
  | pushClipPath pb => exact Inv_pushLayer b _ _ h
  | pushOpacity a => exact Inv_pushLayer b _ _ h
  | pushColorFilter c m => exact Inv_pushLayer b _ _ h
  | pushBackdropFilter f => exact Inv_pushLayer b _ _ h
  | pushShaderMask s r m => exact Inv_pushLayer b _ _ h
  | pushPhysicalModel rr e c d => exact Inv_pushLayer b _ _ h
  | pushPerformanceOverlay o r =>
      show Inv (b.PushPerformanceOverlay o r)
      unfold LayerBuilder.PushPerformanceOverlay
      cases b.current_layer_ with
      | none => exact h
      | some p => exact Inv_addLeaf b _ h
  | pushPicture o p c w =>
      show Inv (b.PushPicture o p c w)
      unfold LayerBuilder.PushPicture
      cases b.current_layer_ with
      | none => exact h
      | some q =>
          by_cases hi : SkRect.Intersects (p.cullRect.offsetBy o.x o.y) b.topCull
          · rw [if_pos hi]; exact Inv_addLeaf b _ h
          · rw [if_neg hi]; exact h
  | pop => exact Inv_pop b h
  | takeLayer =>
      obtain ⟨h1, h2, h3⟩ := h
      refine ⟨h1, h2, ?_⟩
      intro p r _ hr
      exact Option.noConfusion hr
  | setRasterizerTracingThreshold v => exact h
  | setCheckerboardRasterCacheImages v => exact h
  | setCheckerboardOffscreenLayers v => exact h

theorem Inv_run (ops : List Op) (b : LayerBuilder) (h : Inv b) :
    Inv (run ops b) := by
  induction ops generalizing b with
  | nil => exact h
  | cons op ops ih => exact ih (step op b) (Inv_step op b h)

/-- Every state reachable through the public API satisfies the invariant. -/
theorem Inv_reachable (ops : List Op) : Inv (run ops LayerBuilder.init) :=
  Inv_run ops LayerBuilder.init Inv_init

/-! ### The spec's notion of rectangle intersection, compared with the
code's pruning test -/

/-- The axis-aligned intersection box of two rectangles — the direct reading
of the spec's phrase "the intersection of R and the enclosing cull rect".
Stated from the spec's words, to be compared with the code's test. -/
def interRect (a b : SkRect) : SkRect :=
  ⟨max a.fLeft b.fLeft, max a.fTop b.fTop,
   min a.fRight b.fRight, min a.fBottom b.fBottom⟩

/-- Skia's `Intersects` test holds exactly when the intersection box has
positive area. -/
theorem Intersects_iff_not_isEmpty (a b : SkRect) :
    SkRect.Intersects a b ↔ ¬(interRect a b).isEmpty := by
  unfold SkRect.Intersects SkRect.isEmpty interRect
  simp only [not_or, not_le, max_lt_iff, lt_min_iff]
  tauto

/-- Intersecting with an empty rectangle yields an empty box. -/
theorem isEmpty_interRect_right (a e : SkRect) (h : e.isEmpty) :
    (interRect a e).isEmpty := by
  unfold SkRect.isEmpty at *
  rcases h with h | h
  · exact Or.inl (le_trans (min_le_right _ _) (le_trans h (le_max_right _ _)))
  · exact Or.inr (le_trans (min_le_right _ _) (le_trans h (le_max_right _ _)))

theorem intersect_eq_some (a b : SkRect) (h : SkRect.Intersects a b) :
    SkRect.intersect a b = some (interRect a b) := by
  unfold SkRect.intersect
  rw [if_pos h]
  rfl

theorem intersect_eq_none (a b : SkRect) (h : ¬SkRect.Intersects a b) :
    SkRect.intersect a b = none := by
  unfold SkRect.intersect
  rw [if_neg h]

/-- The test `PushPicture` applies under a clip pushed by `PushClipRect`
(test against `intersect(R, top)`, or against `MakeEmpty` when that
intersection was empty) agrees with the spec-side reading: the leaf box has
a non-empty intersection with `interRect R top`. -/
theorem Intersects_clipCull_iff (x R top : SkRect) :
    SkRect.Intersects x ((SkRect.intersect R top).getD SkRect.MakeEmpty) ↔
      ¬(interRect x (interRect R top)).isEmpty := by
  by_cases h : SkRect.Intersects R top
  · rw [intersect_eq_some R top h]
    exact Intersects_iff_not_isEmpty x (interRect R top)
  · rw [intersect_eq_none R top h]
    simp only [Option.getD_none]
    have he : (interRect R top).isEmpty := by
      by_contra hne
      exact h ((Intersects_iff_not_isEmpty R top).mpr hne)
    constructor
    · rintro ⟨_, hb, _⟩
      exact absurd
        (by simp [SkRect.MakeEmpty, SkRect.isEmpty] :
          SkRect.MakeEmpty.isEmpty) hb
    · intro hne
      exact absurd (isEmpty_interRect_right x _ he) hne

/-! ### Well-nested `Begin*`/`End` sequences -/

/-- A command sequence made of matched `Begin*`/`End` pairs: empty, or a
`Begin*` followed by a well-nested body, its matching `End`, and a
well-nested remainder. -/
inductive WellNested : List Op → Prop where
  | nil : WellNested []
  | pair (b : Op) (w1 w2 : List Op) (hb : b.isBegin = true)
      (h1 : WellNested w1) (h2 : WellNested w2) :
      WellNested (b :: (w1 ++ Op.pop :: w2))

/-- Running a well-nested sequence from a state with a root and a current
pointer restores the cull stack and the current pointer, and keeps a root. -/
theorem wellNested_run_restore (w : List Op) (hw : WellNested w) :
    ∀ (b : LayerBuilder) (p : List Nat), b.root_layer_.isSome →
      b.current_layer_ = some p →
      (run w b).cull_rects_ = b.cull_rects_ ∧
      (run w b).current_layer_ = some p ∧
      (run w b).root_layer_.isSome := by
  induction hw with
  | nil => intro b p hr hc; exact ⟨rfl, hc, hr⟩
  | pair bop w1 w2 hb h1 h2 ih1 ih2 =>
      intro b p hr hc
      obtain ⟨root, hroot⟩ := Option.isSome_iff_exists.mp hr
      obtain ⟨ct, cr, hstep⟩ := step_isBegin_eq_pushLayer bop hb b
      have hsplit : bop :: (w1 ++ Op.pop :: w2) =
          (bop :: (w1 ++ [Op.pop])) ++ w2 := by simp
      rw [hsplit, run_append, run_cons, run_append]
      have hb1 : (step bop b).cull_rects_ = cr :: b.cull_rects_ ∧
          (step bop b).current_layer_ =
            some (p ++ [childCountAt root p]) ∧
          (step bop b).root_layer_.isSome := by
        rw [hstep, pushLayer_append b ct cr root p hroot hc]
        exact ⟨rfl, rfl, rfl⟩
      obtain ⟨hcull1, hcur1, hroot1⟩ := hb1
      obtain ⟨hcull2, hcur2, hroot2⟩ :=
        ih1 (step bop b) (p ++ [childCountAt root p]) hroot1 hcur1
      have hpop :=
        Pop_some (run w1 (step bop b)) (p ++ [childCountAt root p]) hcur2
      have hcull3 : (run [Op.pop] (run w1 (step bop b))).cull_rects_ =
          b.cull_rects_ := by
        show (run w1 (step bop b)).Pop.cull_rects_ = b.cull_rects_
        rw [hpop]
        simp only [hcull2, hcull1]
        rfl
      have hcur3 : (run [Op.pop] (run w1 (step bop b))).current_layer_ =
          some p := by
        show (run w1 (step bop b)).Pop.current_layer_ = some p
        rw [hpop]
        simp
      have hroot3 : (run [Op.pop] (run w1 (step bop b))).root_layer_.isSome := by
        show (run w1 (step bop b)).Pop.root_layer_.isSome
        rw [hpop]
        exact hroot2
      obtain ⟨hcull4, hcur4, hroot4⟩ :=
        ih2 (run [Op.pop] (run w1 (step bop b))) p hroot3 hcur3
      exact ⟨hcull4.trans hcull3, hcur4, hroot4⟩

/-! ### Root identity across operations -/

/-- Appending a child anywhere does not change the root node's id. -/
theorem appendChildAt_id (c : Layer) (p : List Nat) (r : Layer) :
    (appendChildAt c p r).id = r.id := by
  cases r with
  | mk i ct cs => cases p <;> rfl

/-- Any single operation other than `TakeLayer` keeps the existing root
node (same identity; it may gain descendants). -/
theorem step_root_id (op : Op) (b : LayerBuilder) (r : Layer)
    (hop : op ≠ Op.takeLayer) (hr : b.root_layer_ = some r) :
    ∃ r', (step op b).root_layer_ = some r' ∧ r'.id = r.id := by
  have hpush : ∀ ct cr, ∃ r',
      (pushLayer b ct cr).root_layer_ = some r' ∧ r'.id = r.id := by
    intro ct cr
    cases hc : b.current_layer_ with
    | none =>
        rw [pushLayer_discard b ct cr r hr hc]
        exact ⟨r, hr, rfl⟩
    | some p =>
        rw [pushLayer_append b ct cr r p hr hc]
        exact ⟨_, rfl, appendChildAt_id _ p r⟩
  have hadd : ∀ ct, ∃ r',
      (addLeaf b ct).root_layer_ = some r' ∧ r'.id = r.id := by
    intro ct
    cases hc : b.current_layer_ with
    | none => rw [addLeaf_no_current b ct hc]; exact ⟨r, hr, rfl⟩
    | some p =>
        rw [addLeaf_some b ct p r hc hr]
        exact ⟨_, rfl, appendChildAt_id _ p r⟩
  cases op with
  | pushTransform m => exact hpush _ _
  | pushClipRect rc => exact hpush _ _
  | pushClipRoundedRect rr => exact hpush _ _
  | pushClipPath pb => exact hpush _ _
  | pushOpacity a => exact hpush _ _
  | pushColorFilter c m => exact hpush _ _
  | pushBackdropFilter f => exact hpush _ _
  | pushShaderMask s rc m => exact hpush _ _
  | pushPhysicalModel rr e c d => exact hpush _ _
  | pushPerformanceOverlay o rc =>
      show ∃ r', (b.PushPerformanceOverlay o rc).root_layer_ = some r' ∧ _
      unfold LayerBuilder.PushPerformanceOverlay
      cases b.current_layer_ with
      | none => exact ⟨r, hr, rfl⟩
      | some p => exact hadd _
  | pushPicture o pc c w =>
      show ∃ r', (b.PushPicture o pc c w).root_layer_ = some r' ∧ _
      unfold LayerBuilder.PushPicture
      cases b.current_layer_ with
      | none => exact ⟨r, hr, rfl⟩
      | some q =>
          by_cases hi : SkRect.Intersects (pc.cullRect.offsetBy o.x o.y)
            b.topCull
          · rw [if_pos hi]; exact hadd _
          · rw [if_neg hi]; exact ⟨r, hr, rfl⟩
  | pop =>
      cases hc : b.current_layer_ with
      | none => rw [show step Op.pop b = b.Pop from rfl,
          Pop_no_current b hc]; exact ⟨r, hr, rfl⟩
      | some p => rw [show step Op.pop b = b.Pop from rfl,
          Pop_some b p hc]; exact ⟨r, hr, rfl⟩
  | takeLayer => exact absurd rfl hop
  | setRasterizerTracingThreshold v => exact ⟨r, hr, rfl⟩
  | setCheckerboardRasterCacheImages v => exact ⟨r, hr, rfl⟩
  | setCheckerboardOffscreenLayers v => exact ⟨r, hr, rfl⟩

/-- Root identity is preserved by any sequence avoiding `TakeLayer`. -/
theorem run_root_id (ops : List Op) (b : LayerBuilder) (r : Layer)
    (hops : Op.takeLayer ∉ ops) (hr : b.root_layer_ = some r) :
    ∃ r', (run ops b).root_layer_ = some r' ∧ r'.id = r.id := by
  induction ops generalizing b r with
  | nil => exact ⟨r, hr, rfl⟩
  | cons op ops ih =>
      have hop : op ≠ Op.takeLayer := fun h => hops (h ▸ List.mem_cons_self op ops)
      have hops' : Op.takeLayer ∉ ops := fun h => hops (List.mem_cons_of_mem op h)
      obtain ⟨r1, hr1, hid1⟩ := step_root_id op b r hop hr
      obtain ⟨r2, hr2, hid2⟩ := ih (step op b) r1 hops' hr1
      exact ⟨r2, hr2, hid2.trans hid1⟩

/-! ## Claims -/

/-- C1, counterexample: the well-nested sequence `Begin End Begin End` (two
sibling top-level pairs) executed from a fresh builder leaves the cull stack
at depth 2, not 1: the second `Begin` runs with a root but no current
pointer and pushes a cull rect, while its matching `End` runs with no
current pointer and is a no-op (it does not pop). -/
theorem c1_counterexample :
    WellNested [Op.pushOpacity 255, Op.pop, Op.pushOpacity 255, Op.pop] ∧
    (run [Op.pushOpacity 255, Op.pop, Op.pushOpacity 255, Op.pop]
        LayerBuilder.init).cull_rects_.length = 2 := by
  constructor
  · exact WellNested.pair (Op.pushOpacity 255) []
      [Op.pushOpacity 255, Op.pop] rfl WellNested.nil
      (WellNested.pair (Op.pushOpacity 255) [] [] rfl
        WellNested.nil WellNested.nil)
  · decide

/-- C1 (amended): for a well-nested sequence forming a single outermost
`Begin*`/`End` pair (every other pair strictly nested inside it), executed
from a freshly constructed builder, the cull-stack depth after the sequence
completes equals its pre-build value, exactly 1 (the sentinel only).  The
original claim fails for sequences with more than one top-level pair: each
`Begin*` issued after the outermost pair has closed pushes a cull rect that
its matching (no-op) `End` never pops. -/
theorem c1_single_outer_pair_depth (bop : Op) (w1 : List Op)
    (hb : bop.isBegin = true) (h1 : WellNested w1) :
    (run (bop :: (w1 ++ [Op.pop])) LayerBuilder.init).cull_rects_.length
      = 1 := by
  rw [run_cons]
  obtain ⟨ct, cr, hstep⟩ := step_isBegin_eq_pushLayer bop hb LayerBuilder.init
  have h0 : (step bop LayerBuilder.init).cull_rects_ =
        cr :: LayerBuilder.init.cull_rects_ ∧
      (step bop LayerBuilder.init).current_layer_ = some [] ∧
      (step bop LayerBuilder.init).root_layer_.isSome := by
    rw [hstep, pushLayer_root_none LayerBuilder.init ct cr rfl]
    exact ⟨rfl, rfl, rfl⟩
  obtain ⟨hcull1, hcur1, hroot1⟩ := h0
  obtain ⟨hcull2, hcur2, hroot2⟩ :=
    wellNested_run_restore w1 h1 (step bop LayerBuilder.init) [] hroot1 hcur1
  rw [run_append]
  show (run w1 (step bop LayerBuilder.init)).Pop.cull_rects_.length = 1
  rw [Pop_some (run w1 (step bop LayerBuilder.init)) [] hcur2]
  simp only [hcull2, hcull1]
  rfl

/-- C1 witness: the single pair `BeginOpacity`/`End` with empty body. -/
theorem c1_witness :
    (Op.pushOpacity 255).isBegin = true ∧ WellNested [] ∧
    (run (Op.pushOpacity 255 :: ([] ++ [Op.pop]))
        LayerBuilder.init).cull_rects_.length = 1 :=
  ⟨rfl, WellNested.nil,
    c1_single_outer_pair_depth (Op.pushOpacity 255) [] rfl WellNested.nil⟩

/-! Unfolding equations for `step` used when chasing concrete sequences. -/

@[simp]
theorem step_pushClipRect (R : SkRect) (b : LayerBuilder) :
    step (Op.pushClipRect R) b = b.PushClipRect R := rfl

@[simp]
theorem step_pushPicture (o : SkPoint) (pic : SkPicture) (c w : Bool)
    (b : LayerBuilder) :
    step (Op.pushPicture o pic c w) b = b.PushPicture o pic c w := rfl

@[simp]
theorem step_pop (b : LayerBuilder) : step Op.pop b = b.Pop := rfl

@[simp]
theorem step_pushPerformanceOverlay (o : Nat) (rect : SkRect)
    (b : LayerBuilder) :
    step (Op.pushPerformanceOverlay o rect) b =
      b.PushPerformanceOverlay o rect := rfl

@[simp]
theorem step_pushTransform (m : SkMatrix) (b : LayerBuilder) :
    step (Op.pushTransform m) b = b.PushTransform m := rfl

/-- The spec-side visibility condition for a picture leaf under a fresh
`BeginClipRect(R)`: the picture bounds `B` translated by the offset `O` have
non-empty intersection with `R ∩ top` (the clip rect intersected with the
enclosing cull rect).  Stated from the spec's words. -/
def picCond (R : SkRect) (O : SkPoint) (pic : SkPicture) (top : SkRect) :
    Prop :=
  ¬(interRect (pic.cullRect.offsetBy O.x O.y) (interRect R top)).isEmpty

instance (R : SkRect) (O : SkPoint) (pic : SkPicture) (top : SkRect) :
    Decidable (picCond R O pic top) := by
  unfold picCond; infer_instance

/-- The clip node the sequence `BeginClipRect(R); AddPicture(O, B); End()`
is predicted to produce: a picture child exactly when `picCond` holds,
otherwise no children.  `nid` is the builder's id counter at the start. -/
def clipNodeResult (R : SkRect) (O : SkPoint) (pic : SkPicture)
    (ic wc : Bool) (nid : Nat) (top : SkRect) : Layer :=
  Layer.mk nid (.clipRect R)
    (if picCond R O pic top
     then [Layer.mk (nid + 1) (.picture O pic ic wc) []]
     else [])

/-- `AddPicture` followed by `End`, from any state with a current pointer
and a root, when the translated picture bounds meet the top cull rect: the
picture leaf is appended, then the pop drops the top cull rect and moves
the current pointer to the parent. -/
theorem pushPicture_pop_run_hit (t : LayerBuilder) (O : SkPoint)
    (pic : SkPicture) (ic wc : Bool) (q : List Nat) (rt : Layer)
    (hc : t.current_layer_ = some q) (hr : t.root_layer_ = some rt)
    (hi : SkRect.Intersects (pic.cullRect.offsetBy O.x O.y) t.topCull) :
    run [Op.pushPicture O pic ic wc, Op.pop] t =
      { t with
        root_layer_ := some (appendChildAt
          (Layer.mk t.nextId (LayerContent.picture O pic ic wc) []) q rt)
        current_layer_ := if q = [] then none else some q.dropLast
        cull_rects_ := t.cull_rects_.tail
        nextId := t.nextId + 1 } := by
  rw [run_cons, run_cons, run_nil, step_pushPicture,
    PushPicture_hit t O pic ic wc q hc hi, addLeaf_some t _ q rt hc hr,
    step_pop,
    Pop_some
      { t with
        root_layer_ := some (appendChildAt
          (Layer.mk t.nextId (LayerContent.picture O pic ic wc) []) q rt)
        nextId := t.nextId + 1 } q hc]

/-- `AddPicture` followed by `End` when the translated picture bounds miss
the top cull rect: the leaf is dropped; only the pop acts. -/
theorem pushPicture_pop_run_miss (t : LayerBuilder) (O : SkPoint)
    (pic : SkPicture) (ic wc : Bool) (q : List Nat)
    (hc : t.current_layer_ = some q)
    (hi : ¬SkRect.Intersects (pic.cullRect.offsetBy O.x O.y) t.topCull) :
    run [Op.pushPicture O pic ic wc, Op.pop] t =
      { t with
        current_layer_ := if q = [] then none else some q.dropLast
        cull_rects_ := t.cull_rects_.tail } := by
  rw [run_cons, run_cons, run_nil, step_pushPicture,
    PushPicture_miss t O pic ic wc q hc hi, step_pop, Pop_some t q hc]

/-- `PushLayer` always pushes its cull rect, whatever branch it takes. -/
theorem pushLayer_cull (b : LayerBuilder) (ct : LayerContent) (cr : SkRect) :
    (pushLayer b ct cr).cull_rects_ = cr :: b.cull_rects_ := by
  unfold pushLayer
  cases hb : b.root_layer_ with
  | none => rfl
  | some root =>
      cases hc : b.current_layer_ with
      | none => rfl
      | some p => rfl

unseal Rat.add Rat.mul Rat.sub Rat.inv in
/-- C2, counterexample to the claim as stated: with a current container
open on a tree that already holds a (visible) picture from an earlier
command, running `BeginClipRect((0,0,5,5)); AddPicture(offset (10,10),
bounds (0,0,2,2)); End()` gives an empty intersection — the claim then
asserts "no picture node exists anywhere in the tree", yet the tree still
contains the earlier picture node. -/
theorem c2_counterexample :
    ¬picCond ⟨0, 0, 5, 5⟩ ⟨10, 10⟩ ⟨⟨0, 0, 2, 2⟩⟩ SkRect.MakeLargest ∧
    ((run [Op.pushOpacity 255,
        Op.pushPicture ⟨0, 0⟩ ⟨⟨0, 0, 10, 10⟩⟩ false false,
        Op.pushClipRect ⟨0, 0, 5, 5⟩,
        Op.pushPicture ⟨10, 10⟩ ⟨⟨0, 0, 2, 2⟩⟩ false false,
        Op.pop] LayerBuilder.init).root_layer_.bind
          (Layer.getAt? [1])).map (fun cl => cl.children.length) = some 0 ∧
    ((run [Op.pushOpacity 255,
        Op.pushPicture ⟨0, 0⟩ ⟨⟨0, 0, 10, 10⟩⟩ false false,
        Op.pushClipRect ⟨0, 0, 5, 5⟩,
        Op.pushPicture ⟨10, 10⟩ ⟨⟨0, 0, 2, 2⟩⟩ false false,
        Op.pop] LayerBuilder.init).root_layer_.map countPictures) = some 1 := by
  refine ⟨by decide, by decide, by decide⟩

/-- C2 (amended): after `BeginClipRect(R); AddPicture(O, B); End()` — run
with a current container open (at a valid path `p`, as every reachable
state has) or on a builder without a root — the resulting clip node has a
picture child iff `(B + O)` meets `R ∩ top`, and otherwise the clip node
has zero children and the sequence adds no picture node anywhere (the
tree's picture count is unchanged; on a rootless builder the whole tree is
the childless clip node). -/
theorem c2_clip_picture (R : SkRect) (O : SkPoint) (pic : SkPicture)
    (ic wc : Bool) (s : LayerBuilder) :
    (s.root_layer_ = none →
      run [Op.pushClipRect R, Op.pushPicture O pic ic wc, Op.pop] s =
        { s with
          root_layer_ :=
            some (clipNodeResult R O pic ic wc s.nextId s.topCull)
          current_layer_ := none
          nextId :=
            if picCond R O pic s.topCull then s.nextId + 2
            else s.nextId + 1 }) ∧
    (∀ p r n, s.current_layer_ = some p → s.root_layer_ = some r →
      Layer.getAt? p r = some n →
      run [Op.pushClipRect R, Op.pushPicture O pic ic wc, Op.pop] s =
        { s with
          root_layer_ :=
            some (appendChildAt
              (clipNodeResult R O pic ic wc s.nextId s.topCull) p r)
          current_layer_ := some p
          nextId :=
            if picCond R O pic s.topCull then s.nextId + 2
            else s.nextId + 1 } ∧
      Layer.getAt? (p ++ [n.children.length])
          (appendChildAt
            (clipNodeResult R O pic ic wc s.nextId s.topCull) p r) =
        some (clipNodeResult R O pic ic wc s.nextId s.topCull) ∧
      countPictures
          (appendChildAt
            (clipNodeResult R O pic ic wc s.nextId s.topCull) p r) =
        countPictures r +
          (if picCond R O pic s.topCull then 1 else 0)) := by
  have hiff : ∀ x : SkRect,
      SkRect.Intersects x
          ((SkRect.intersect R s.topCull).getD SkRect.MakeEmpty) ↔
        ¬(interRect x (interRect R s.topCull)).isEmpty :=
    fun x => Intersects_clipCull_iff x R s.topCull
  have hsplit : [Op.pushClipRect R, Op.pushPicture O pic ic wc, Op.pop] =
      [Op.pushClipRect R] ++ [Op.pushPicture O pic ic wc, Op.pop] := rfl
  constructor
  · intro h0
    have e1 : run [Op.pushClipRect R] s =
        { s with
          root_layer_ :=
            some (Layer.mk s.nextId (LayerContent.clipRect R) [])
          current_layer_ := some []
          cull_rects_ :=
            ((SkRect.intersect R s.topCull).getD SkRect.MakeEmpty) ::
              s.cull_rects_
          nextId := s.nextId + 1 } := by
      rw [run_cons, run_nil, step_pushClipRect]
      exact pushLayer_root_none s _ _ h0
    by_cases hcond : picCond R O pic s.topCull
    · have e2 := pushPicture_pop_run_hit
        { s with
          root_layer_ :=
            some (Layer.mk s.nextId (LayerContent.clipRect R) [])
          current_layer_ := some []
          cull_rects_ :=
            ((SkRect.intersect R s.topCull).getD SkRect.MakeEmpty) ::
              s.cull_rects_
          nextId := s.nextId + 1 }
        O pic ic wc [] (Layer.mk s.nextId (LayerContent.clipRect R) [])
        rfl rfl ((hiff _).mpr hcond)
      rw [hsplit, run_append, e1, e2]
      simp only [clipNodeResult, if_pos hcond]
      rfl
    · have e2 := pushPicture_pop_run_miss
        { s with
          root_layer_ :=
            some (Layer.mk s.nextId (LayerContent.clipRect R) [])
          current_layer_ := some []
          cull_rects_ :=
            ((SkRect.intersect R s.topCull).getD SkRect.MakeEmpty) ::
              s.cull_rects_
          nextId := s.nextId + 1 }
        O pic ic wc [] rfl (fun hv => hcond ((hiff _).mp hv))
      rw [hsplit, run_append, e1, e2]
      simp only [clipNodeResult, if_neg hcond]
      rfl
  · intro p r n hc hr hn
    have hk : childCountAt r p = n.children.length := by
      simp [childCountAt, hn]
    have e1 : run [Op.pushClipRect R] s =
        { s with
          root_layer_ :=
            some (appendChildAt
              (Layer.mk s.nextId (LayerContent.clipRect R) []) p r)
          current_layer_ := some (p ++ [n.children.length])
          cull_rects_ :=
            ((SkRect.intersect R s.topCull).getD SkRect.MakeEmpty) ::
              s.cull_rects_
          nextId := s.nextId + 1 } := by
      rw [run_cons, run_nil, step_pushClipRect]
      have e0 := pushLayer_append s (LayerContent.clipRect R)
        ((SkRect.intersect R s.topCull).getD SkRect.MakeEmpty) r p hr hc
      rw [hk] at e0
      exact e0
    by_cases hcond : picCond R O pic s.topCull
    · have e2 := pushPicture_pop_run_hit
        { s with
          root_layer_ :=
            some (appendChildAt
              (Layer.mk s.nextId (LayerContent.clipRect R) []) p r)
          current_layer_ := some (p ++ [n.children.length])
          cull_rects_ :=
            ((SkRect.intersect R s.topCull).getD SkRect.MakeEmpty) ::
              s.cull_rects_
          nextId := s.nextId + 1 }
        O pic ic wc (p ++ [n.children.length])
        (appendChildAt (Layer.mk s.nextId (LayerContent.clipRect R) []) p r)
        rfl rfl ((hiff _).mpr hcond)
      refine ⟨?_, ?_, ?_⟩
      · rw [hsplit, run_append, e1, e2,
          appendChildAt_nested p r n s.nextId (LayerContent.clipRect R)
            _ hn]
        simp only [clipNodeResult, if_pos hcond]
        simp [List.dropLast_concat]
      · rw [show clipNodeResult R O pic ic wc s.nextId s.topCull =
            Layer.mk s.nextId (LayerContent.clipRect R)
              [Layer.mk (s.nextId + 1)
                (LayerContent.picture O pic ic wc) []] by
            simp [clipNodeResult, if_pos hcond]]
        exact appendChildAt_getAt?_new _ p r n hn
      · rw [countPictures_appendChildAt _ p r n hn]
        simp only [clipNodeResult, if_pos hcond]
        simp [countPictures, countPicturesList]
    · have e2 := pushPicture_pop_run_miss
        { s with
          root_layer_ :=
            some (appendChildAt
              (Layer.mk s.nextId (LayerContent.clipRect R) []) p r)
          current_layer_ := some (p ++ [n.children.length])
          cull_rects_ :=
            ((SkRect.intersect R s.topCull).getD SkRect.MakeEmpty) ::
              s.cull_rects_
          nextId := s.nextId + 1 }
        O pic ic wc (p ++ [n.children.length])
        rfl (fun hv => hcond ((hiff _).mp hv))
      refine ⟨?_, ?_, ?_⟩
      · rw [hsplit, run_append, e1, e2]
        simp only [clipNodeResult, if_neg hcond]
        simp [List.dropLast_concat]
      · rw [show clipNodeResult R O pic ic wc s.nextId s.topCull =
            Layer.mk s.nextId (LayerContent.clipRect R) [] by
            simp [clipNodeResult, if_neg hcond]]
        exact appendChildAt_getAt?_new _ p r n hn
      · rw [countPictures_appendChildAt _ p r n hn]
        simp only [clipNodeResult, if_neg hcond]
        simp [countPictures, countPicturesList]

/-- C2 witness: spec scenario B on a fresh builder — clip `(0,0,5,5)`,
picture bounds `(0,0,2,2)` at offset `(10,10)`: empty intersection, so the
root is a childless clip node (no picture anywhere). -/
theorem c2_witness :
    run [Op.pushClipRect ⟨0, 0, 5, 5⟩,
        Op.pushPicture ⟨10, 10⟩ ⟨⟨0, 0, 2, 2⟩⟩ false false, Op.pop]
      LayerBuilder.init =
    { LayerBuilder.init with
      root_layer_ :=
        some (clipNodeResult ⟨0, 0, 5, 5⟩ ⟨10, 10⟩ ⟨⟨0, 0, 2, 2⟩⟩
          false false LayerBuilder.init.nextId LayerBuilder.init.topCull)
      current_layer_ := none
      nextId :=
        if picCond ⟨0, 0, 5, 5⟩ ⟨10, 10⟩ ⟨⟨0, 0, 2, 2⟩⟩
            LayerBuilder.init.topCull
        then LayerBuilder.init.nextId + 2
        else LayerBuilder.init.nextId + 1 } :=
  (c2_clip_picture ⟨0, 0, 5, 5⟩ ⟨10, 10⟩ ⟨⟨0, 0, 2, 2⟩⟩ false false
    LayerBuilder.init).1 rfl

/-- C3: `BeginTransform(M)` pushes onto the cull stack, when `M` is
invertible, the image of the current top cull rect under the inverse of
`M` (the bounding box of the mapped corners, as `SkMatrix::mapRect`
computes it); when `M` is singular it pushes `MakeLargest`.  In both cases
the rest of the transition is the generic `PushLayer` one with a transform
node carrying `M`. -/
theorem c3_transform_cull (s : LayerBuilder) (M : SkMatrix) :
    (∀ inv, M.invert = some inv →
      (step (Op.pushTransform M) s).cull_rects_ =
        inv.mapRect s.topCull :: s.cull_rects_) ∧
    (M.invert = none →
      (step (Op.pushTransform M) s).cull_rects_ =
        SkRect.MakeLargest :: s.cull_rects_) ∧
    (s.root_layer_ = none →
      (step (Op.pushTransform M) s).root_layer_ =
        some (Layer.mk s.nextId (LayerContent.transform M) [])) ∧
    step (Op.pushTransform M) s =
      pushLayer s (LayerContent.transform M)
        ((M.invert.map (fun inv => inv.mapRect s.topCull)).getD
          SkRect.MakeLargest) := by
  refine ⟨?_, ?_, ?_, ?_⟩
  · intro inv hinv
    rw [step_pushTransform]
    unfold LayerBuilder.PushTransform
    rw [hinv, pushLayer_cull]
  · intro hinv
    rw [step_pushTransform]
    unfold LayerBuilder.PushTransform
    rw [hinv, pushLayer_cull]
  · intro h0
    rw [step_pushTransform]
    unfold LayerBuilder.PushTransform
    rw [pushLayer_root_none s _ _ h0]
  · cases hM : M.invert with
    | none =>
        rw [step_pushTransform]
        unfold LayerBuilder.PushTransform
        rw [hM]
        rfl
    | some inv =>
        rw [step_pushTransform]
        unfold LayerBuilder.PushTransform
        rw [hM]
        rfl

unseal Rat.add Rat.mul Rat.sub Rat.inv in
/-- C3 witness: the identity matrix is invertible (inverse itself); the
zero matrix is singular, and the two cull-stack pushes evaluate as the
theorem states on a fresh builder. -/
theorem c3_witness :
    SkMatrix.invert ⟨1, 0, 0, 0, 1, 0⟩ = some ⟨1, 0, 0, 0, 1, 0⟩ ∧
    SkMatrix.invert ⟨0, 0, 0, 0, 0, 0⟩ = none ∧
    (step (Op.pushTransform ⟨1, 0, 0, 0, 1, 0⟩)
        LayerBuilder.init).cull_rects_ =
      SkMatrix.mapRect ⟨1, 0, 0, 0, 1, 0⟩ LayerBuilder.init.topCull ::
        LayerBuilder.init.cull_rects_ ∧
    (step (Op.pushTransform ⟨0, 0, 0, 0, 0, 0⟩)
        LayerBuilder.init).cull_rects_ =
      SkRect.MakeLargest :: LayerBuilder.init.cull_rects_ :=
  ⟨by decide, by decide,
    (c3_transform_cull LayerBuilder.init ⟨1, 0, 0, 0, 1, 0⟩).1
      ⟨1, 0, 0, 0, 1, 0⟩ (by decide),
    (c3_transform_cull LayerBuilder.init ⟨0, 0, 0, 0, 0, 0⟩).2.1
      (by decide)⟩

/-- C4, counterexample: after `BeginOpacity(255)` the root is the node with
id 0; `TakeTree` then `BeginOpacity(7)` installs the (different) node with
id 1 as root of the same builder instance — the root does change after a
`TakeTree`. -/
theorem c4_counterexample :
    ((run [Op.pushOpacity 255] LayerBuilder.init).root_layer_).map Layer.id =
      some 0 ∧
    ((run [Op.pushOpacity 255, Op.takeLayer, Op.pushOpacity 7]
        LayerBuilder.init).root_layer_).map Layer.id = some 1 ∧
    ((run [Op.pushOpacity 255, Op.takeLayer, Op.pushOpacity 7]
        LayerBuilder.init).root_layer_).map Layer.content =
      some (LayerContent.opacity 7) :=
  ⟨by decide, by decide, by decide⟩

/-- C4 (amended): once a root exists, no operation other than `TakeLayer`
ever replaces it — over any sequence avoiding `TakeLayer` the root keeps
its identity (it only gains descendants).  After a `TakeLayer` detaches the
root, a later `Begin*` may install a fresh root. -/
theorem c4_root_stable (ops : List Op) (s : LayerBuilder) (r : Layer)
    (hops : Op.takeLayer ∉ ops) (hr : s.root_layer_ = some r) :
    ∃ r', (run ops s).root_layer_ = some r' ∧ r'.id = r.id :=
  run_root_id ops s r hops hr

/-- C4 witness: with the root installed by `BeginOpacity(255)`, running a
`TakeLayer`-free suffix keeps root id 0. -/
theorem c4_witness :
    Op.takeLayer ∉ [Op.pushOpacity 3, Op.pop] ∧
    ∃ r', (run [Op.pushOpacity 3, Op.pop]
        (run [Op.pushOpacity 255] LayerBuilder.init)).root_layer_ =
          some r' ∧
      r'.id = (Layer.mk 0 (LayerContent.opacity 255) []).id :=
  ⟨by decide,
    c4_root_stable [Op.pushOpacity 3, Op.pop]
      (run [Op.pushOpacity 255] LayerBuilder.init)
      (Layer.mk 0 (LayerContent.opacity 255) []) (by decide) rfl⟩

/-- C5: a `Begin*` executed with a root present but no current pointer
still pushes its computed cull rect, but discards the node: the tree, the
current pointer and the configuration fields are unchanged. -/
theorem c5_discarded_begin (s : LayerBuilder) (op : Op)
    (hb : op.isBegin = true) (r : Layer) (hr : s.root_layer_ = some r)
    (hc : s.current_layer_ = none) :
    ∃ rect, (step op s).cull_rects_ = rect :: s.cull_rects_ ∧
      (step op s).root_layer_ = s.root_layer_ ∧
      (step op s).current_layer_ = none ∧
      (step op s).rasterizer_tracing_threshold_ =
        s.rasterizer_tracing_threshold_ ∧
      (step op s).checkerboard_raster_cache_images_ =
        s.checkerboard_raster_cache_images_ ∧
      (step op s).checkerboard_offscreen_layers_ =
        s.checkerboard_offscreen_layers_ := by
  obtain ⟨ct, cr, hstep⟩ := step_isBegin_eq_pushLayer op hb s
  rw [hstep, pushLayer_discard s ct cr r hr hc]
  exact ⟨cr, rfl, rfl, hc, rfl, rfl, rfl⟩

/-- C5 witness: `BeginOpacity(255); End()` closes past the root, then a
further `BeginOpacity(7)` is discarded while its cull rect is pushed. -/
theorem c5_witness :
    ∃ rect, (step (Op.pushOpacity 7)
        (run [Op.pushOpacity 255, Op.pop] LayerBuilder.init)).cull_rects_ =
          rect ::
            (run [Op.pushOpacity 255, Op.pop]
              LayerBuilder.init).cull_rects_ ∧
      (step (Op.pushOpacity 7)
          (run [Op.pushOpacity 255, Op.pop]
            LayerBuilder.init)).root_layer_ =
        (run [Op.pushOpacity 255, Op.pop] LayerBuilder.init).root_layer_ ∧
      (step (Op.pushOpacity 7)
          (run [Op.pushOpacity 255, Op.pop]
            LayerBuilder.init)).current_layer_ = none ∧
      (step (Op.pushOpacity 7)
          (run [Op.pushOpacity 255, Op.pop]
            LayerBuilder.init)).rasterizer_tracing_threshold_ =
        (run [Op.pushOpacity 255, Op.pop]
          LayerBuilder.init).rasterizer_tracing_threshold_ ∧
      (step (Op.pushOpacity 7)
          (run [Op.pushOpacity 255, Op.pop]
            LayerBuilder.init)).checkerboard_raster_cache_images_ =
        (run [Op.pushOpacity 255, Op.pop]
          LayerBuilder.init).checkerboard_raster_cache_images_ ∧
      (step (Op.pushOpacity 7)
          (run [Op.pushOpacity 255, Op.pop]
            LayerBuilder.init)).checkerboard_offscreen_layers_ =
        (run [Op.pushOpacity 255, Op.pop]
          LayerBuilder.init).checkerboard_offscreen_layers_ :=
  c5_discarded_begin (run [Op.pushOpacity 255, Op.pop] LayerBuilder.init)
    (Op.pushOpacity 7) rfl (Layer.mk 0 (LayerContent.opacity 255) [])
    rfl rfl

/-- C6: from a freshly constructed builder, after any sequence of public
operations the cull stack is non-empty, and whenever a current pointer is
set (the only situation in which `End()` pops) the stack holds at least 2
entries — so `pop()` is never performed on the sentinel-only stack. -/
theorem c6_stack_safety (ops : List Op) :
    (run ops LayerBuilder.init).cull_rects_ ≠ [] ∧
    ((run ops LayerBuilder.init).current_layer_ ≠ none →
      2 ≤ (run ops LayerBuilder.init).cull_rects_.length) := by
  obtain ⟨h1, h2, h3⟩ := Inv_reachable ops
  refine ⟨h1, ?_⟩
  intro hc
  cases hcc : (run ops LayerBuilder.init).current_layer_ with
  | none => exact absurd hcc hc
  | some p =>
      have := h2 p hcc
      omega

/-- C6 witness: after one `BeginOpacity` the current pointer is set and
the stack has exactly 2 entries. -/
theorem c6_witness :
    (run [Op.pushOpacity 255] LayerBuilder.init).cull_rects_ ≠ [] ∧
    2 ≤ (run [Op.pushOpacity 255] LayerBuilder.init).cull_rects_.length :=
  ⟨(c6_stack_safety [Op.pushOpacity 255]).1,
    (c6_stack_safety [Op.pushOpacity 255]).2 (by decide)⟩

/-- C7: `AddPerformanceOverlay` appends the overlay leaf as the last child
of the current container whenever a current pointer is set — for every
flags value and every rectangle, with no geometry test against the cull
rect — and is a no-op when no current pointer is set. -/
theorem c7_performance_overlay (s : LayerBuilder) (options : Nat)
    (rect : SkRect) :
    (s.current_layer_ = none →
      step (Op.pushPerformanceOverlay options rect) s = s) ∧
    (∀ p r n, s.current_layer_ = some p → s.root_layer_ = some r →
      Layer.getAt? p r = some n →
      step (Op.pushPerformanceOverlay options rect) s =
        { s with
          root_layer_ := some (appendChildAt
            (Layer.mk s.nextId
              (LayerContent.performanceOverlay options rect) []) p r)
          nextId := s.nextId + 1 } ∧
      Layer.getAt? p (appendChildAt
          (Layer.mk s.nextId
            (LayerContent.performanceOverlay options rect) []) p r) =
        some (Layer.mk n.id n.content (n.children ++
          [Layer.mk s.nextId
            (LayerContent.performanceOverlay options rect) []]))) := by
  constructor
  · intro hc
    rw [step_pushPerformanceOverlay,
      PushPerformanceOverlay_no_current s options rect hc]
  · intro p r n hc hr hn
    constructor
    · rw [step_pushPerformanceOverlay,
        PushPerformanceOverlay_some s options rect p hc,
        addLeaf_some s _ p r hc hr]
    · exact appendChildAt_getAt?_self _ p r n hn

/-- C7 witness: an overlay with a rect disjoint from everything is still
appended under an open `BeginOpacity` container. -/
theorem c7_witness :
    step (Op.pushPerformanceOverlay 3 ⟨99, 99, 98, 98⟩)
        (run [Op.pushOpacity 255] LayerBuilder.init) =
      { run [Op.pushOpacity 255] LayerBuilder.init with
        root_layer_ := some (appendChildAt
          (Layer.mk (run [Op.pushOpacity 255] LayerBuilder.init).nextId
            (LayerContent.performanceOverlay 3 ⟨99, 99, 98, 98⟩) []) []
          (Layer.mk 0 (LayerContent.opacity 255) []))
        nextId := (run [Op.pushOpacity 255] LayerBuilder.init).nextId + 1 } ∧
    Layer.getAt? [] (appendChildAt
        (Layer.mk (run [Op.pushOpacity 255] LayerBuilder.init).nextId
          (LayerContent.performanceOverlay 3 ⟨99, 99, 98, 98⟩) []) []
        (Layer.mk 0 (LayerContent.opacity 255) [])) =
      some (Layer.mk (Layer.mk 0 (LayerContent.opacity 255) []).id
        (Layer.mk 0 (LayerContent.opacity 255) []).content
        ((Layer.mk 0 (LayerContent.opacity 255) []).children ++
          [Layer.mk (run [Op.pushOpacity 255] LayerBuilder.init).nextId
            (LayerContent.performanceOverlay 3 ⟨99, 99, 98, 98⟩) []])) :=
  (c7_performance_overlay (run [Op.pushOpacity 255] LayerBuilder.init) 3
    ⟨99, 99, 98, 98⟩).2 [] (Layer.mk 0 (LayerContent.opacity 255) [])
    (Layer.mk 0 (LayerContent.opacity 255) []) rfl rfl rfl

/-- C8: `BeginOpacity`, `BeginColorFilter`, `BeginBackdropFilter` and
`BeginShaderMask` push onto the cull stack exactly the rectangle that was
on top immediately before — the visible region passes through unchanged,
for every parameter value. -/
theorem c8_passthrough_cull (s : LayerBuilder) (alpha : Int)
    (color blendMode filter shader : Nat) (rect : SkRect)
    (blendMode2 : Nat) :
    (step (Op.pushOpacity alpha) s).cull_rects_ =
      s.topCull :: s.cull_rects_ ∧
    (step (Op.pushColorFilter color blendMode) s).cull_rects_ =
      s.topCull :: s.cull_rects_ ∧
    (step (Op.pushBackdropFilter filter) s).cull_rects_ =
      s.topCull :: s.cull_rects_ ∧
    (step (Op.pushShaderMask shader rect blendMode2) s).cull_rects_ =
      s.topCull :: s.cull_rects_ :=
  ⟨pushLayer_cull s _ s.topCull, pushLayer_cull s _ s.topCull,
    pushLayer_cull s _ s.topCull, pushLayer_cull s _ s.topCull⟩

/-- C9: `End()` with no current pointer is a no-op: the whole builder
state — tree, root, current pointer, cull stack, configuration — is
exactly unchanged. -/
theorem c9_pop_no_current (s : LayerBuilder)
    (h : s.current_layer_ = none) : step Op.pop s = s := by
  rw [step_pop]
  exact Pop_no_current s h

/-- C9 witness: `End()` on the fresh builder is the identity. -/
theorem c9_witness : step Op.pop LayerBuilder.init = LayerBuilder.init :=
  c9_pop_no_current LayerBuilder.init rfl

/-- C10: `TakeLayer` returns the root and modifies only the root slot —
the current pointer, the cull stack and the three configuration fields are
exactly those of the pre-call state — and in every reachable state in
which a current pointer is set, the path it denotes is realisable inside
the transferred tree. -/
theorem c10_takeLayer (ops : List Op) :
    ((run ops LayerBuilder.init).TakeLayer).1 =
      (run ops LayerBuilder.init).root_layer_ ∧
    ((run ops LayerBuilder.init).TakeLayer).2 =
      { run ops LayerBuilder.init with root_layer_ := none } ∧
    (∀ p r, (run ops LayerBuilder.init).current_layer_ = some p →
      (run ops LayerBuilder.init).root_layer_ = some r →
      ((run ops LayerBuilder.init).TakeLayer).1 = some r ∧
      (Layer.getAt? p r).isSome) := by
  refine ⟨rfl, rfl, ?_⟩
  intro p r hc hr
  exact ⟨hr, (Inv_reachable ops).2.2 p r hc hr⟩

/-- C10 witness: with one open `BeginOpacity` group, `TakeLayer` hands out
the root and the still-set current pointer denotes its top node. -/
theorem c10_witness :
    ((run [Op.pushOpacity 255] LayerBuilder.init).TakeLayer).1 =
      some (Layer.mk 0 (LayerContent.opacity 255) []) ∧
    (Layer.getAt? [] (Layer.mk 0 (LayerContent.opacity 255) [])).isSome :=
  (c10_takeLayer [Op.pushOpacity 255]).2.2 []
    (Layer.mk 0 (LayerContent.opacity 255) []) rfl rfl

end Flow
